import Mathlib

/-!
Shallow embedding of the agent-market simulator (src/model.py, src/market.py,
src/traders.py, src/main.py) and verification of its specification claims.

Conventions of the embedding:
* Python `float` values (prices, sizes, cash, lots) are modelled as `ℚ`.
* A raised Python exception is modelled as `Except.error msg` (for functions
  that can raise) with `msg` naming the exception.
* Python objects have identity; an `Order` object may be referenced both from
  the book and from a working variable, so mutating `best_bid.size` in
  `match_orders` also changes the entry in `book.bids` that has the same `id`
  (two list entries with equal `id` are the same Python object, since ids are
  uuid-unique at creation).  The embedding makes this aliasing explicit with
  `setSizeById`, which rewrites the size of every book entry carrying the id
  of the mutated working order.
* `list.pop()` removes and returns the last element; the embedding reverses
  the sorted working lists once and takes heads, which is the same sequence
  of elements.
* `uuid4()` draws and `stats.norm.rvs` draws are nondeterministic inputs; the
  embedding takes them as explicit parameters (a normal draw with location
  `loc` and scale `s` is modelled as `loc + s * z` for an explicit `z`).
-/

/-- Embeds `OrderSide` of model.py: a closed two-variant enum. -/
inductive OrderSide
  | bid
  | ask
deriving DecidableEq, Repr

/-- Embeds `Order` of model.py.  The `id` field is set from `uuid4()` at
creation; here it is an ordinary field supplied by the creating context. -/
structure Order where
  price : ℚ
  size : ℚ
  side : OrderSide
  sender_id : String
  id : String
deriving DecidableEq, Repr

/-- Embeds `Trade` of model.py. -/
structure Trade where
  buyer_id : String
  seller_id : String
  size : ℚ
  price : ℚ
deriving DecidableEq, Repr

/-- Embeds `OrderBook` of market.py: two lists of resting orders. -/
structure OrderBook where
  bids : List Order
  asks : List Order
deriving DecidableEq, Repr

/-- Embeds `OrderBook.add_order_to_book`: append to the side's list.  The
`raise KeyError` branch is unreachable because `OrderSide` is closed. -/
def addOrderToBook (book : OrderBook) (order : Order) : OrderBook :=
  match order.side with
  | OrderSide.ask => { book with asks := book.asks ++ [order] }
  | OrderSide.bid => { book with bids := book.bids ++ [order] }

/-- Embeds Python `max(orders, key=attrgetter("price"))`: the first element of
maximal price, raising `ValueError` on an empty sequence. -/
def maxByPrice : List Order → Except String Order
  | [] => Except.error "ValueError: empty sequence"
  | o :: os => Except.ok (os.foldl (fun acc x => if x.price > acc.price then x else acc) o)

/-- Embeds Python `min(orders, key=attrgetter("price"))`: the first element of
minimal price, raising `ValueError` on an empty sequence. -/
def minByPrice : List Order → Except String Order
  | [] => Except.error "ValueError: empty sequence"
  | o :: os => Except.ok (os.foldl (fun acc x => if x.price < acc.price then x else acc) o)

/-- Embeds `OrderBook.get_best_bid`: `max(self.bids, key=attrgetter("price"))`. -/
def getBestBid (book : OrderBook) : Except String Order :=
  maxByPrice book.bids

/-- Embeds `OrderBook.get_best_ask`: `min(self.asks, key=attrgetter("price"))`. -/
def getBestAsk (book : OrderBook) : Except String Order :=
  minByPrice book.asks

/-- Embeds `OrderBook.cancel_order`: drop every entry of the side's list whose
id equals the given order's id. -/
def cancelOrder (book : OrderBook) (order : Order) : OrderBook :=
  match order.side with
  | OrderSide.bid => { book with bids := book.bids.filter (fun b => !(b.id == order.id)) }
  | OrderSide.ask => { book with asks := book.asks.filter (fun a => !(a.id == order.id)) }

/-- Embeds `OrderBook.amend_order`: cancel by id, then append. -/
def amendOrder (book : OrderBook) (order : Order) : OrderBook :=
  match order.side with
  | OrderSide.bid =>
      { book with bids := book.bids.filter (fun b => !(b.id == order.id)) ++ [order] }
  | OrderSide.ask =>
      { book with asks := book.asks.filter (fun a => !(a.id == order.id)) ++ [order] }

/-- Embeds `OrderBook.clear_book`: empty both sides. -/
def clearBook (_ : OrderBook) : OrderBook :=
  { bids := [], asks := [] }

/-- Embeds `MatchingEngine._cross_orders`: trade at the midpoint price with
size the minimum of the two resting sizes. -/
def crossOrders (bid ask : Order) : Trade :=
  { buyer_id := bid.sender_id
    seller_id := ask.sender_id
    size := min bid.size ask.size
    price := (bid.price + ask.price) / 2 }

/-- Models the Python object aliasing in `match_orders`: assigning to the
working order's `size` also updates the book entries that are the same object
(same `id`). -/
def setSizeById (orders : List Order) (oid : String) (newSize : ℚ) : List Order :=
  orders.map (fun o => if o.id == oid then { o with size := newSize } else o)

/-- Embeds the `while True` loop of `MatchingEngine.match_orders`.  The state
is the remaining sorted working lists (best element first, i.e. the reverse of
the worst-to-best lists the source pops from), the current working best bid
and ask, the book being mutated, and the trades accumulated so far.  Returns
the final working best bid and ask together with the book and trade list at
loop exit. -/
def matchLoop (bidsRest asksRest : List Order) (bestBid bestAsk : Order)
    (book : OrderBook) (trades : List Trade) :
    Order × Order × OrderBook × List Trade :=
  if bestBid.price < bestAsk.price then
    (bestBid, bestAsk, book, trades)
  else
    let trade := crossOrders bestBid bestAsk
    let trades' := trades ++ [trade]
    if bestBid.size > bestAsk.size then
      let book' := cancelOrder book bestAsk
      match asksRest with
      | [] => (bestBid, bestAsk, book', trades')
      | nextAsk :: asksRest' =>
          let newSize := bestBid.size - trade.size
          let bestBid' := { bestBid with size := newSize }
          let book'' := { book' with bids := setSizeById book'.bids bestBid.id newSize }
          matchLoop bidsRest asksRest' bestBid' nextAsk book'' trades'
    else if bestBid.size < bestAsk.size then
      let book' := cancelOrder book bestBid
      match bidsRest with
      | [] => (bestBid, bestAsk, book', trades')
      | nextBid :: bidsRest' =>
          let newSize := bestAsk.size - trade.size
          let bestAsk' := { bestAsk with size := newSize }
          let book'' := { book' with asks := setSizeById book'.asks bestAsk.id newSize }
          matchLoop bidsRest' asksRest nextBid bestAsk' book'' trades'
    else
      let book' := cancelOrder (cancelOrder book bestBid) bestAsk
      match bidsRest with
      | [] => (bestBid, bestAsk, book', trades')
      | nextBid :: bidsRest' =>
          match asksRest with
          | [] => (bestBid, bestAsk, book', trades')
          | nextAsk :: asksRest' =>
              matchLoop bidsRest' asksRest' nextBid nextAsk book' trades'
termination_by bidsRest.length + asksRest.length
decreasing_by
  all_goals simp [List.length_cons]
  all_goals omega

/-- Comparison used for `sorted(book.bids, key=lambda order: order.price,
reverse=False)`: ascending by price (stable). -/
def bidLe (a b : Order) : Bool := a.price ≤ b.price

/-- Comparison used for `sorted(book.asks, key=lambda order: order.price,
reverse=True)`: descending by price (stable, equal keys keep their order). -/
def askLe (a b : Order) : Bool := b.price ≤ a.price

/-- Embeds `MatchingEngine.match_orders`.  Sorting uses a stable merge sort,
as Python's `sorted` does.  Popping the last element of a worst-to-best list
is taken as the head of its reversal.  An empty side makes the initial
`pop()` raise `IndexError`. -/
def matchOrders (book : OrderBook) : Except String (List Trade × OrderBook) :=
  let sortedBids := book.bids.mergeSort bidLe
  let sortedAsks := book.asks.mergeSort askLe
  match sortedBids.reverse with
  | [] => Except.error "IndexError: pop from empty list"
  | bestBid :: bidsRest =>
    match sortedAsks.reverse with
    | [] => Except.error "IndexError: pop from empty list"
    | bestAsk :: asksRest =>
      let r := matchLoop bidsRest asksRest bestBid bestAsk book []
      let book' := addOrderToBook (addOrderToBook r.2.2.1 r.1) r.2.1
      Except.ok (r.2.2.2, book')

/-- Embeds `MarketState` of market.py. -/
structure MarketState where
  orderbook : OrderBook
  true_price : ℚ
deriving Repr

/-- Embeds the `DumbTrader` (noise trader) state of traders.py: trade size,
volatility, id, cash and lots fixed at construction. -/
structure DumbTrader where
  size : ℚ
  vol : ℚ
  id : String
  cash : ℚ
  lots : ℚ
deriving DecidableEq, Repr

/-- Embeds `DumbTrader._offer_bid`: the price is a normal draw centred on
`price` with scale `vol`, modelled as `price + vol * z` for an explicit
standardised draw `z`; `oid` is the `uuid4()` draw for the new order. -/
def dumbOfferBid (t : DumbTrader) (price z : ℚ) (oid : String) : Order :=
  { price := price + t.vol * z, size := t.size, side := OrderSide.bid
    sender_id := t.id, id := oid }

/-- Embeds `DumbTrader._offer_ask`, analogously to `dumbOfferBid`. -/
def dumbOfferAsk (t : DumbTrader) (price z : ℚ) (oid : String) : Order :=
  { price := price + t.vol * z, size := t.size, side := OrderSide.ask
    sender_id := t.id, id := oid }

/-- Python truthiness of an `Order` value: a dataclass instance defines
neither a bool nor a len conversion, so it is always truthy.  Used to embed
the `if best_bid and best_ask:` test of `DumbTrader.generate_orders`
literally. -/
def truthy (_ : Order) : Bool := true

/-- Embeds `DumbTrader.generate_orders` of traders.py.  `sideDraw` is the
`stats.norm.rvs()` coin draw, `z` the standardised price draw, `oid` the
uuid draw.  `get_best_bid` and `get_best_ask` raise `ValueError` on an empty
side, and that exception propagates; the `if best_bid and best_ask`
cascade is embedded with `truthy` and its final branch returns no orders. -/
def generateOrdersDumb (t : DumbTrader) (sideDraw z : ℚ) (oid : String)
    (ms : MarketState) : Except String (List Order) :=
  let random_side := if sideDraw > 0 then OrderSide.bid else OrderSide.ask
  match getBestBid ms.orderbook with
  | Except.error e => Except.error e
  | Except.ok best_bid =>
    match getBestAsk ms.orderbook with
    | Except.error e => Except.error e
    | Except.ok best_ask =>
      let mid? : Option ℚ :=
        if truthy best_bid && truthy best_ask then
          some ((best_bid.price + best_ask.price) / 2)
        else if truthy best_bid then some best_bid.price
        else if truthy best_ask then some best_ask.price
        else none
      match mid? with
      | none => Except.ok []
      | some market_mid =>
        match random_side with
        | OrderSide.bid => Except.ok [dumbOfferBid t market_mid z oid]
        | OrderSide.ask => Except.ok [dumbOfferAsk t market_mid z oid]

/-- Embeds the settlement-relevant state of a trader in main.py: the cash
balance and the position in lots.  The players dict key is the trader id. -/
structure Player where
  cash : ℚ
  lots : ℚ
deriving DecidableEq, Repr

/-- Models `players[key]` followed by an in-place field update: the first
entry whose key matches is replaced by `f` applied to it; a missing key is
the dict's `KeyError`, modelled as `none`. -/
def adjustPlayer (ps : List (String × Player)) (key : String) (f : Player → Player) :
    Option (List (String × Player)) :=
  match ps with
  | [] => none
  | (k, p) :: rest =>
      if k = key then some ((k, f p) :: rest)
      else (adjustPlayer rest key f).map (fun r => (k, p) :: r)

/-- Embeds the body of the `for trade in trades` loop of `clear_trades` in
main.py: four sequential in-place updates of the buyer's and seller's cash
and lots. -/
def clearTrade (ps : List (String × Player)) (t : Trade) :
    Option (List (String × Player)) :=
  (adjustPlayer ps t.buyer_id (fun p => { p with cash := p.cash - t.price })).bind fun ps1 =>
  (adjustPlayer ps1 t.buyer_id (fun p => { p with lots := p.lots + t.size })).bind fun ps2 =>
  (adjustPlayer ps2 t.seller_id (fun p => { p with cash := p.cash + t.price })).bind fun ps3 =>
  adjustPlayer ps3 t.seller_id (fun p => { p with lots := p.lots - t.size })

/-- Embeds `clear_trades` of main.py: fold the per-trade settlement over the
trade list in order. -/
def clearTrades (ps : List (String × Player)) (trades : List Trade) :
    Option (List (String × Player)) :=
  match trades with
  | [] => some ps
  | t :: rest => (clearTrade ps t).bind (fun ps' => clearTrades ps' rest)

/-- Dict lookup `players[key]` as a query: the first entry with the key. -/
def lookupPlayer (ps : List (String × Player)) (key : String) : Option Player :=
  (ps.find? (fun kp => kp.1 == key)).map (fun kp => kp.2)

/-! Concrete orders used to evaluate the engine on the spec's scenarios. -/

/-- The scenario bid: price 101, size 10, owned by trader A. -/
def scBid : Order :=
  { price := 101, size := 10, side := OrderSide.bid, sender_id := "A", id := "b1" }

/-- The scenario ask: price 100, size 4, owned by trader B. -/
def scAsk : Order :=
  { price := 100, size := 4, side := OrderSide.ask, sender_id := "B", id := "a1" }

/-- The trade the engine emits for `scBid` against `scAsk`. -/
def scTrade : Trade :=
  { buyer_id := "A", seller_id := "B", size := 4, price := 201 / 2 }

/-- A non-crossing bid: price 90, size 1, owned by trader A. -/
def lowBid : Order :=
  { price := 90, size := 1, side := OrderSide.bid, sender_id := "A", id := "b2" }

/-- A non-crossing ask: price 100, size 1, owned by trader B. -/
def highAsk : Order :=
  { price := 100, size := 1, side := OrderSide.ask, sender_id := "B", id := "a2" }

/-- A cheaper ask: price 97, size 2, owned by trader B. -/
def cheapAsk : Order :=
  { price := 97, size := 2, side := OrderSide.ask, sender_id := "B", id := "a3" }

/-- Claim C1: on the book with exactly the bid (101, 10) and the ask (100, 4),
`match_orders` emits the single trade (price 100.5, size 4) as the claim
says, but the resulting book diverges from the claim: the loop breaks before
the size decrement, so the bid keeps size 10, and the working bid and ask
are appended with `add_order_to_book` instead of amended, leaving two copies
of the bid (size 10 each) and the cancelled ask re-added. -/
theorem c1_match_scenario_eval :
    matchOrders { bids := [scBid], asks := [scAsk] } =
      Except.ok ([scTrade], { bids := [scBid, scBid], asks := [scAsk] }) := by
  norm_num [matchOrders, matchLoop, crossOrders, cancelOrder, addOrderToBook, setSizeById,
    scBid, scAsk, scTrade, bidLe, askLe]

/-- Claim C2 counterexample: on a book with one bid and no asks,
`match_orders` does not return the empty trade list with the book unchanged;
the initial `pop()` on the empty ask side raises `IndexError`. -/
theorem c2_empty_side_counterexample :
    matchOrders { bids := [scBid], asks := [] } =
      Except.error "IndexError: pop from empty list" ∧
    matchOrders { bids := [scBid], asks := [] } ≠
      Except.ok ([], { bids := [scBid], asks := [] }) := by
  have h : matchOrders { bids := [scBid], asks := [] } =
      Except.error "IndexError: pop from empty list" := by
    norm_num [matchOrders]
  exact ⟨h, by rw [h]; exact fun hc => Except.noConfusion hc⟩

/-- Claim C3: evaluating `match_orders` on the crossing book (bid 101 size
10, ask 100 size 4) leaves a book whose bid and ask sides are both non-empty
while a resting bid's price is still greater than or equal to a resting
ask's price: a residual crossable pair survives matching even though neither
side was exhausted. -/
theorem c3_residual_cross_eval :
    matchOrders { bids := [scBid], asks := [scAsk] } =
      Except.ok ([scTrade], { bids := [scBid, scBid], asks := [scAsk] }) ∧
    ([scBid, scBid] : List Order) ≠ [] ∧ ([scAsk] : List Order) ≠ [] ∧
    scBid ∈ [scBid, scBid] ∧ scAsk ∈ [scAsk] ∧ scAsk.price ≤ scBid.price := by
  refine ⟨?_, by simp, by simp, List.mem_cons_self scBid [scBid],
    List.mem_cons_self scAsk [], by norm_num [scBid, scAsk]⟩
  norm_num [matchOrders, matchLoop, crossOrders, cancelOrder, addOrderToBook, setSizeById,
    scBid, scAsk, scTrade, bidLe, askLe]

/-- Claim C6: on an empty side `get_best_bid` and `get_best_ask` raise
`ValueError` (Python `max` and `min` of an empty sequence) instead of
returning an empty "no order" result; in particular both raise after
`clear_book`.  On non-empty sides they do return the maximum-price bid and
the minimum-price ask. -/
theorem c6_best_of_empty_eval :
    getBestBid (clearBook { bids := [scBid], asks := [scAsk] }) =
      Except.error "ValueError: empty sequence" ∧
    getBestAsk (clearBook { bids := [scBid], asks := [scAsk] }) =
      Except.error "ValueError: empty sequence" ∧
    getBestBid { bids := [lowBid, scBid], asks := [] } = Except.ok scBid ∧
    getBestAsk { bids := [], asks := [highAsk, cheapAsk] } = Except.ok cheapAsk := by
  refine ⟨rfl, rfl, ?_, ?_⟩
  · norm_num [getBestBid, maxByPrice, lowBid, scBid]
  · norm_num [getBestAsk, minByPrice, highAsk, cheapAsk]

/-- Claim C8: on a market state whose book is empty on both sides,
`DumbTrader.generate_orders` does not return the empty order list; the very
first `get_best_bid` call raises `ValueError`, which propagates, so the
fall-back branches and the "do not trade" branch are unreachable. -/
theorem c8_empty_book_eval (t : DumbTrader) (sideDraw z : ℚ) (oid : String) (p : ℚ) :
    generateOrdersDumb t sideDraw z oid
        { orderbook := { bids := [], asks := [] }, true_price := p } =
      Except.error "ValueError: empty sequence" := rfl

/-- Claim C2 (amended): for every book whose bid collection or ask collection
is empty, `match_orders` raises `IndexError` from the initial `pop()` on an
empty working list: no matching is performed and no trades are emitted, but
no trade list is returned at all (the call fails instead). -/
theorem c2_empty_side_raises (book : OrderBook)
    (h : book.bids = [] ∨ book.asks = []) :
    matchOrders book = Except.error "IndexError: pop from empty list" := by
  unfold matchOrders
  rcases h with h | h
  · rw [h]
    simp [List.mergeSort_nil]
  · rw [h]
    rcases hb : (book.bids.mergeSort bidLe).reverse with _ | ⟨bb, rest⟩
    · simp [hb]
    · simp [hb, List.mergeSort_nil]

/-- Witness for `c2_empty_side_raises` at a concrete one-sided book. -/
theorem c2_empty_side_raises_witness :
    matchOrders { bids := [], asks := [highAsk] } =
      Except.error "IndexError: pop from empty list" :=
  c2_empty_side_raises { bids := [], asks := [highAsk] } (Or.inl rfl)

/-! Settlement lemmas: `adjustPlayer` preserves the key sequence, acts on the
looked-up entry, leaves other keys alone, and succeeds exactly when the key
is present. -/

/-- The key sequence of the players map is unchanged by `adjustPlayer`. -/
theorem adjustPlayer_keys (key : String) (f : Player → Player) :
    ∀ ps ps' : List (String × Player), adjustPlayer ps key f = some ps' →
      ps'.map Prod.fst = ps.map Prod.fst := by
  intro ps
  induction ps with
  | nil => intro ps' h; simp [adjustPlayer] at h
  | cons kp rest ih =>
    intro ps' h
    obtain ⟨k, p⟩ := kp
    by_cases hk : k = key
    · simp only [adjustPlayer, if_pos hk] at h
      injection h with h
      subst h
      simp
    · simp only [adjustPlayer, if_neg hk, Option.map_eq_some'] at h
      obtain ⟨r, hr, rfl⟩ := h
      simp [ih r hr]

/-- Looking up the adjusted key after `adjustPlayer` sees the update. -/
theorem adjustPlayer_lookup_self (key : String) (f : Player → Player) :
    ∀ ps ps' : List (String × Player), adjustPlayer ps key f = some ps' →
      lookupPlayer ps' key = (lookupPlayer ps key).map f := by
  intro ps
  induction ps with
  | nil => intro ps' h; simp [adjustPlayer] at h
  | cons kp rest ih =>
    intro ps' h
    obtain ⟨k, p⟩ := kp
    by_cases hk : k = key
    · simp only [adjustPlayer, if_pos hk] at h
      injection h with h
      subst h
      simp [lookupPlayer, hk]
    · simp only [adjustPlayer, if_neg hk, Option.map_eq_some'] at h
      obtain ⟨r, hr, rfl⟩ := h
      have h1 : lookupPlayer ((k, p) :: r) key = lookupPlayer r key := by
        simp [lookupPlayer, hk]
      have h2 : lookupPlayer ((k, p) :: rest) key = lookupPlayer rest key := by
        simp [lookupPlayer, hk]
      rw [h1, h2, ih r hr]

/-- Looking up any other key after `adjustPlayer` sees the old value. -/
theorem adjustPlayer_lookup_ne (key : String) (f : Player → Player) :
    ∀ ps ps' : List (String × Player), adjustPlayer ps key f = some ps' →
      ∀ k' : String, k' ≠ key → lookupPlayer ps' k' = lookupPlayer ps k' := by
  intro ps
  induction ps with
  | nil => intro ps' h; simp [adjustPlayer] at h
  | cons kp rest ih =>
    intro ps' h k' hk'
    obtain ⟨k, p⟩ := kp
    by_cases hk : k = key
    · simp only [adjustPlayer, if_pos hk] at h
      injection h with h
      subst h
      have hkk' : ¬ k = k' := fun hc => hk' (hc.symm.trans hk)
      simp [lookupPlayer, hkk']
    · simp only [adjustPlayer, if_neg hk, Option.map_eq_some'] at h
      obtain ⟨r, hr, rfl⟩ := h
      by_cases hkk' : k = k'
      · simp [lookupPlayer, hkk']
      · have h1 : lookupPlayer ((k, p) :: r) k' = lookupPlayer r k' := by
          simp [lookupPlayer, hkk']
        have h2 : lookupPlayer ((k, p) :: rest) k' = lookupPlayer rest k' := by
          simp [lookupPlayer, hkk']
        rw [h1, h2, ih r hr k' hk']

/-- `adjustPlayer` succeeds whenever the key is present. -/
theorem adjustPlayer_of_lookup (key : String) (f : Player → Player) :
    ∀ (ps : List (String × Player)) (p : Player), lookupPlayer ps key = some p →
      ∃ ps', adjustPlayer ps key f = some ps' := by
  intro ps
  induction ps with
  | nil => intro p h; simp [lookupPlayer] at h
  | cons kp rest ih =>
    intro p h
    obtain ⟨k, q⟩ := kp
    by_cases hk : k = key
    · exact ⟨(k, f q) :: rest, by simp [adjustPlayer, hk]⟩
    · simp only [lookupPlayer, List.find?] at h
      rw [show ((k, q).1 == key) = false by simp [hk]] at h
      obtain ⟨r, hr⟩ := ih p h
      exact ⟨(k, q) :: r, by simp [adjustPlayer, hk, hr]⟩

/-- Claim C5: settling a single trade adjusts the buyer's cash by minus the
trade price and lots by plus the trade size, and the seller's cash by plus
the trade price and lots by minus the trade size (the cash delta is the
per-unit price, not price times size), leaving every other player
unchanged. -/
theorem c5_clear_trades_single (ps : List (String × Player)) (t : Trade)
    (buyer seller : Player)
    (hb : lookupPlayer ps t.buyer_id = some buyer)
    (hs : lookupPlayer ps t.seller_id = some seller)
    (hne : t.buyer_id ≠ t.seller_id) :
    ∃ ps', clearTrades ps [t] = some ps' ∧
      lookupPlayer ps' t.buyer_id =
        some { cash := buyer.cash - t.price, lots := buyer.lots + t.size } ∧
      lookupPlayer ps' t.seller_id =
        some { cash := seller.cash + t.price, lots := seller.lots - t.size } ∧
      ∀ k, k ≠ t.buyer_id → k ≠ t.seller_id →
        lookupPlayer ps' k = lookupPlayer ps k := by
  obtain ⟨ps1, h1⟩ := adjustPlayer_of_lookup t.buyer_id
    (fun p => { p with cash := p.cash - t.price }) ps buyer hb
  have l1b : lookupPlayer ps1 t.buyer_id =
      some { cash := buyer.cash - t.price, lots := buyer.lots } := by
    rw [adjustPlayer_lookup_self _ _ ps ps1 h1, hb]; rfl
  have l1s : lookupPlayer ps1 t.seller_id = some seller := by
    rw [adjustPlayer_lookup_ne _ _ ps ps1 h1 t.seller_id (Ne.symm hne), hs]
  obtain ⟨ps2, h2⟩ := adjustPlayer_of_lookup t.buyer_id
    (fun p => { p with lots := p.lots + t.size }) ps1 _ l1b
  have l2b : lookupPlayer ps2 t.buyer_id =
      some { cash := buyer.cash - t.price, lots := buyer.lots + t.size } := by
    rw [adjustPlayer_lookup_self _ _ ps1 ps2 h2, l1b]; rfl
  have l2s : lookupPlayer ps2 t.seller_id = some seller := by
    rw [adjustPlayer_lookup_ne _ _ ps1 ps2 h2 t.seller_id (Ne.symm hne), l1s]
  obtain ⟨ps3, h3⟩ := adjustPlayer_of_lookup t.seller_id
    (fun p => { p with cash := p.cash + t.price }) ps2 seller l2s
  have l3s : lookupPlayer ps3 t.seller_id =
      some { cash := seller.cash + t.price, lots := seller.lots } := by
    rw [adjustPlayer_lookup_self _ _ ps2 ps3 h3, l2s]; rfl
  have l3b : lookupPlayer ps3 t.buyer_id =
      some { cash := buyer.cash - t.price, lots := buyer.lots + t.size } := by
    rw [adjustPlayer_lookup_ne _ _ ps2 ps3 h3 t.buyer_id hne, l2b]
  obtain ⟨ps4, h4⟩ := adjustPlayer_of_lookup t.seller_id
    (fun p => { p with lots := p.lots - t.size }) ps3 _ l3s
  have l4s : lookupPlayer ps4 t.seller_id =
      some { cash := seller.cash + t.price, lots := seller.lots - t.size } := by
    rw [adjustPlayer_lookup_self _ _ ps3 ps4 h4, l3s]; rfl
  have l4b : lookupPlayer ps4 t.buyer_id =
      some { cash := buyer.cash - t.price, lots := buyer.lots + t.size } := by
    rw [adjustPlayer_lookup_ne _ _ ps3 ps4 h4 t.buyer_id hne, l3b]
  have hct : clearTrade ps t = some ps4 := by
    simp only [clearTrade, h1, h2, h3, h4, Option.some_bind]
  refine ⟨ps4, ?_, l4b, l4s, ?_⟩
  · simp only [clearTrades, hct, Option.some_bind]
  · intro k hkb hks
    rw [adjustPlayer_lookup_ne _ _ ps3 ps4 h4 k hks,
      adjustPlayer_lookup_ne _ _ ps2 ps3 h3 k hks,
      adjustPlayer_lookup_ne _ _ ps1 ps2 h2 k hkb,
      adjustPlayer_lookup_ne _ _ ps ps1 h1 k hkb]

/-- Witness for `c5_clear_trades_single`: the spec scenario of settling the
single Trade(buyer A, seller B, size 5, price 50) against players A (cash
100, lots 0) and B (cash 200, lots 10). -/
theorem c5_clear_trades_single_witness :
    ∃ ps', clearTrades [("A", (⟨100, 0⟩ : Player)), ("B", (⟨200, 10⟩ : Player))]
        [{ buyer_id := "A", seller_id := "B", size := 5, price := 50 }] = some ps' ∧
      lookupPlayer ps' "A" = some { cash := 100 - 50, lots := 0 + 5 } ∧
      lookupPlayer ps' "B" = some { cash := 200 + 50, lots := 10 - 5 } ∧
      ∀ k, k ≠ "A" → k ≠ "B" →
        lookupPlayer ps' k =
          lookupPlayer [("A", (⟨100, 0⟩ : Player)), ("B", (⟨200, 10⟩ : Player))] k :=
  c5_clear_trades_single [("A", ⟨100, 0⟩), ("B", ⟨200, 10⟩)]
    { buyer_id := "A", seller_id := "B", size := 5, price := 50 }
    ⟨100, 0⟩ ⟨200, 10⟩ rfl rfl (by decide)

/-- Total value of a numeric attribute summed across the players map. -/
def sumBy (g : Player → ℚ) (ps : List (String × Player)) : ℚ :=
  (ps.map (fun kp => g kp.2)).sum

/-- `adjustPlayer` changes the total of an attribute by exactly the delta the
update applies to a single player. -/
theorem adjustPlayer_sumBy (key : String) (f : Player → Player) (g : Player → ℚ)
    (d : ℚ) (hf : ∀ p, g (f p) = g p + d) :
    ∀ ps ps' : List (String × Player), adjustPlayer ps key f = some ps' →
      sumBy g ps' = sumBy g ps + d := by
  intro ps
  induction ps with
  | nil => intro ps' h; simp [adjustPlayer] at h
  | cons kp rest ih =>
    intro ps' h
    obtain ⟨k, p⟩ := kp
    by_cases hk : k = key
    · simp only [adjustPlayer, if_pos hk] at h
      injection h with h
      subst h
      simp only [sumBy, List.map_cons, List.sum_cons, hf p]
      ring
    · simp only [adjustPlayer, if_neg hk, Option.map_eq_some'] at h
      obtain ⟨r, hr, rfl⟩ := h
      have hrec := ih r hr
      simp only [sumBy, List.map_cons, List.sum_cons] at hrec ⊢
      linarith

/-- One settled trade moves no net cash and no net lots across the players. -/
theorem clearTrade_sumBy (ps ps' : List (String × Player)) (t : Trade)
    (h : clearTrade ps t = some ps') :
    sumBy Player.cash ps' = sumBy Player.cash ps ∧
    sumBy Player.lots ps' = sumBy Player.lots ps := by
  unfold clearTrade at h
  obtain ⟨ps1, h1, h⟩ := Option.bind_eq_some.mp h
  obtain ⟨ps2, h2, h⟩ := Option.bind_eq_some.mp h
  obtain ⟨ps3, h3, h4⟩ := Option.bind_eq_some.mp h
  constructor
  · have e1 := adjustPlayer_sumBy t.buyer_id
      (fun p => { p with cash := p.cash - t.price }) Player.cash (-t.price)
      (fun p => by show p.cash - t.price = p.cash + (-t.price); ring) ps ps1 h1
    have e2 := adjustPlayer_sumBy t.buyer_id
      (fun p => { p with lots := p.lots + t.size }) Player.cash 0
      (fun p => (add_zero p.cash).symm) ps1 ps2 h2
    have e3 := adjustPlayer_sumBy t.seller_id
      (fun p => { p with cash := p.cash + t.price }) Player.cash t.price
      (fun p => rfl) ps2 ps3 h3
    have e4 := adjustPlayer_sumBy t.seller_id
      (fun p => { p with lots := p.lots - t.size }) Player.cash 0
      (fun p => (add_zero p.cash).symm) ps3 ps' h4
    linarith
  · have e1 := adjustPlayer_sumBy t.buyer_id
      (fun p => { p with cash := p.cash - t.price }) Player.lots 0
      (fun p => (add_zero p.lots).symm) ps ps1 h1
    have e2 := adjustPlayer_sumBy t.buyer_id
      (fun p => { p with lots := p.lots + t.size }) Player.lots t.size
      (fun p => rfl) ps1 ps2 h2
    have e3 := adjustPlayer_sumBy t.seller_id
      (fun p => { p with cash := p.cash + t.price }) Player.lots 0
      (fun p => (add_zero p.lots).symm) ps2 ps3 h3
    have e4 := adjustPlayer_sumBy t.seller_id
      (fun p => { p with lots := p.lots - t.size }) Player.lots (-t.size)
      (fun p => by show p.lots - t.size = p.lots + (-t.size); ring) ps3 ps' h4
    linarith

/-- Claim C9: settlement is zero-sum.  Whenever `clear_trades` succeeds (all
buyers and sellers are keys of the players map), the total cash over all
players and the total lots over all players are unchanged. -/
theorem c9_clear_trades_zero_sum :
    ∀ (ts : List Trade) (ps ps' : List (String × Player)),
      clearTrades ps ts = some ps' →
      sumBy Player.cash ps' = sumBy Player.cash ps ∧
      sumBy Player.lots ps' = sumBy Player.lots ps := by
  intro ts
  induction ts with
  | nil =>
    intro ps ps' h
    simp only [clearTrades, Option.some_inj] at h
    subst h
    exact ⟨rfl, rfl⟩
  | cons t rest ih =>
    intro ps ps' h
    simp only [clearTrades] at h
    obtain ⟨ps1, h1, h2⟩ := Option.bind_eq_some.mp h
    obtain ⟨e1, e2⟩ := clearTrade_sumBy ps ps1 t h1
    obtain ⟨e3, e4⟩ := ih ps1 ps' h2
    exact ⟨by linarith, by linarith⟩

/-- Witness for `c9_clear_trades_zero_sum` at the concrete settlement of the
spec scenario trade: cash total 300 and lots total 10 before and after. -/
theorem c9_clear_trades_zero_sum_witness :
    sumBy Player.cash [("A", (⟨50, 5⟩ : Player)), ("B", (⟨250, 5⟩ : Player))] =
      sumBy Player.cash [("A", (⟨100, 0⟩ : Player)), ("B", (⟨200, 10⟩ : Player))] ∧
    sumBy Player.lots [("A", (⟨50, 5⟩ : Player)), ("B", (⟨250, 5⟩ : Player))] =
      sumBy Player.lots [("A", (⟨100, 0⟩ : Player)), ("B", (⟨200, 10⟩ : Player))] :=
  c9_clear_trades_zero_sum
    [{ buyer_id := "A", seller_id := "B", size := 5, price := 50 }]
    [("A", ⟨100, 0⟩), ("B", ⟨200, 10⟩)]
    [("A", ⟨50, 5⟩), ("B", ⟨250, 5⟩)] (by
      have hne : ("A" : String) ≠ "B" := by decide
      norm_num [clearTrades, clearTrade, adjustPlayer, Option.some_bind, hne])

/-- A working order of the matching loop as a partially filled resting order
of the original book: same id, price, side and owner as an order actually in
`orig`, with a positive remaining size no larger than that order's original
size.  This ties the bid/ask of an emitted trade to the book's orders at the
moment of crossing. -/
def reducedOf (orig : List Order) (o : Order) : Prop :=
  ∃ o0 ∈ orig, o.id = o0.id ∧ o.price = o0.price ∧ o.side = o0.side ∧
    o.sender_id = o0.sender_id ∧ 0 < o.size ∧ o.size ≤ o0.size

/-- Invariant of the matching loop: if every working order is a partially
filled order of the original book (with positive sizes), then every trade it
accumulates is `_cross_orders` of two such orders in crossing position. -/
theorem matchLoop_trades_reduced (origBids origAsks : List Order) :
    ∀ (bidsRest asksRest : List Order) (bestBid bestAsk : Order)
      (book : OrderBook) (trades : List Trade),
      reducedOf origBids bestBid → reducedOf origAsks bestAsk →
      (∀ o ∈ bidsRest, reducedOf origBids o) →
      (∀ o ∈ asksRest, reducedOf origAsks o) →
      (∀ t ∈ trades, ∃ bid ask : Order, reducedOf origBids bid ∧
        reducedOf origAsks ask ∧ ask.price ≤ bid.price ∧ t = crossOrders bid ask) →
      ∀ t ∈ (matchLoop bidsRest asksRest bestBid bestAsk book trades).2.2.2,
        ∃ bid ask : Order, reducedOf origBids bid ∧ reducedOf origAsks ask ∧
          ask.price ≤ bid.price ∧ t = crossOrders bid ask := by
  intro bidsRest asksRest bestBid bestAsk book trades
  induction bidsRest, asksRest, bestBid, bestAsk, book, trades using matchLoop.induct with
  | case1 bidsRest asksRest bestBid bestAsk book trades hlt =>
    intro hbb hba hrb hra hacc t ht
    rw [matchLoop] at ht
    simp only [if_pos hlt] at ht
    exact hacc t ht
  | case2 bidsRest bestBid bestAsk book trades hlt hgt =>
    intro hbb hba hrb hra hacc t ht
    rw [matchLoop] at ht
    simp only [if_neg hlt, if_pos hgt] at ht
    rcases List.mem_append.mp ht with hmem | hmem
    · exact hacc t hmem
    · exact ⟨bestBid, bestAsk, hbb, hba, not_lt.mp hlt, List.mem_singleton.mp hmem⟩
  | case3 bidsRest bestBid bestAsk book trades hlt trade trades' hgt book' o os newSize bestBid' book'' ih =>
    intro hbb hba hrb hra hacc t ht
    rw [matchLoop] at ht
    simp only [if_neg hlt, if_pos hgt] at ht
    obtain ⟨b0, hb0, hid, hpr, hsd, hsn, hposb, hleb⟩ := hbb
    obtain ⟨a0, ha0, _, _, _, _, hposa, hlea⟩ := hba
    refine ih ⟨b0, hb0, hid, hpr, hsd, hsn, ?_, ?_⟩
      (hra o (List.mem_cons_self o os)) hrb
      (fun o' ho' => hra o' (List.mem_cons_of_mem o ho')) ?_ t ht
    · show (0 : ℚ) < bestBid.size - min bestBid.size bestAsk.size
      rw [min_eq_right (le_of_lt hgt)]
      linarith
    · show bestBid.size - min bestBid.size bestAsk.size ≤ b0.size
      rw [min_eq_right (le_of_lt hgt)]
      linarith
    · intro u hu
      rcases List.mem_append.mp hu with hmem | hmem
      · exact hacc u hmem
      · exact ⟨bestBid, bestAsk, ⟨b0, hb0, hid, hpr, hsd, hsn, hposb, hleb⟩,
          ⟨a0, ha0, by assumption, by assumption, by assumption, by assumption, hposa, hlea⟩,
          not_lt.mp hlt, List.mem_singleton.mp hmem⟩
  | case4 asksRest bestBid bestAsk book trades hlt hgt hlt2 =>
    intro hbb hba hrb hra hacc t ht
    rw [matchLoop] at ht
    simp only [if_neg hlt, if_neg hgt, if_pos hlt2] at ht
    rcases List.mem_append.mp ht with hmem | hmem
    · exact hacc t hmem
    · exact ⟨bestBid, bestAsk, hbb, hba, not_lt.mp hlt, List.mem_singleton.mp hmem⟩
  | case5 asksRest bestBid bestAsk book trades hlt trade trades' hgt hlt2 book' o os newSize bestAsk' book'' ih =>
    intro hbb hba hrb hra hacc t ht
    rw [matchLoop] at ht
    simp only [if_neg hlt, if_neg hgt, if_pos hlt2] at ht
    obtain ⟨b0, hb0, hidb, hprb, hsdb, hsnb, hposb, hleb⟩ := hbb
    obtain ⟨a0, ha0, hida, hpra, hsda, hsna, hposa, hlea⟩ := hba
    refine ih (hrb o (List.mem_cons_self o os))
      ⟨a0, ha0, hida, hpra, hsda, hsna, ?_, ?_⟩
      (fun o' ho' => hrb o' (List.mem_cons_of_mem o ho')) hra ?_ t ht
    · show (0 : ℚ) < bestAsk.size - min bestBid.size bestAsk.size
      rw [min_eq_left (le_of_lt hlt2)]
      linarith
    · show bestAsk.size - min bestBid.size bestAsk.size ≤ a0.size
      rw [min_eq_left (le_of_lt hlt2)]
      linarith
    · intro u hu
      rcases List.mem_append.mp hu with hmem | hmem
      · exact hacc u hmem
      · exact ⟨bestBid, bestAsk, ⟨b0, hb0, hidb, hprb, hsdb, hsnb, hposb, hleb⟩,
          ⟨a0, ha0, hida, hpra, hsda, hsna, hposa, hlea⟩,
          not_lt.mp hlt, List.mem_singleton.mp hmem⟩
  | case6 asksRest bestBid bestAsk book trades hlt hgt hlt2 =>
    intro hbb hba hrb hra hacc t ht
    rw [matchLoop] at ht
    simp only [if_neg hlt, if_neg hgt, if_neg hlt2] at ht
    rcases List.mem_append.mp ht with hmem | hmem
    · exact hacc t hmem
    · exact ⟨bestBid, bestAsk, hbb, hba, not_lt.mp hlt, List.mem_singleton.mp hmem⟩
  | case7 bestBid bestAsk book trades hlt hgt hlt2 o os =>
    intro hbb hba hrb hra hacc t ht
    rw [matchLoop] at ht
    simp only [if_neg hlt, if_neg hgt, if_neg hlt2] at ht
    rcases List.mem_append.mp ht with hmem | hmem
    · exact hacc t hmem
    · exact ⟨bestBid, bestAsk, hbb, hba, not_lt.mp hlt, List.mem_singleton.mp hmem⟩
  | case8 bestBid bestAsk book trades hlt trade trades' hgt hlt2 book' o os o1 os1 ih =>
    intro hbb hba hrb hra hacc t ht
    rw [matchLoop] at ht
    simp only [if_neg hlt, if_neg hgt, if_neg hlt2] at ht
    refine ih (hrb o (List.mem_cons_self o os)) (hra o1 (List.mem_cons_self o1 os1))
      (fun o' ho' => hrb o' (List.mem_cons_of_mem o ho'))
      (fun o' ho' => hra o' (List.mem_cons_of_mem o1 ho')) ?_ t ht
    intro u hu
    rcases List.mem_append.mp hu with hmem | hmem
    · exact hacc u hmem
    · exact ⟨bestBid, bestAsk, hbb, hba, not_lt.mp hlt, List.mem_singleton.mp hmem⟩

/-- The matching loop only ever appends to the accumulated trade list. -/
theorem matchLoop_trades_mono :
    ∀ (bidsRest asksRest : List Order) (bestBid bestAsk : Order)
      (book : OrderBook) (trades : List Trade),
      ∃ suffix : List Trade,
        (matchLoop bidsRest asksRest bestBid bestAsk book trades).2.2.2 =
          trades ++ suffix := by
  intro bidsRest asksRest bestBid bestAsk book trades
  induction bidsRest, asksRest, bestBid, bestAsk, book, trades using matchLoop.induct with
  | case1 bidsRest asksRest bestBid bestAsk book trades hlt =>
    refine ⟨[], ?_⟩
    rw [matchLoop]
    simp only [if_pos hlt, List.append_nil]
  | case2 bidsRest bestBid bestAsk book trades hlt hgt =>
    refine ⟨[crossOrders bestBid bestAsk], ?_⟩
    rw [matchLoop]
    simp only [if_neg hlt, if_pos hgt]
  | case3 bidsRest bestBid bestAsk book trades hlt trade trades' hgt book' o os newSize bestBid' book'' ih =>
    obtain ⟨suf, hsuf⟩ := ih
    refine ⟨crossOrders bestBid bestAsk :: suf, ?_⟩
    rw [matchLoop]
    simp only [if_neg hlt, if_pos hgt]
    refine hsuf.trans ?_
    show (trades ++ [crossOrders bestBid bestAsk]) ++ suf =
      trades ++ (crossOrders bestBid bestAsk :: suf)
    simp
  | case4 asksRest bestBid bestAsk book trades hlt hgt hlt2 =>
    refine ⟨[crossOrders bestBid bestAsk], ?_⟩
    rw [matchLoop]
    simp only [if_neg hlt, if_neg hgt, if_pos hlt2]
  | case5 asksRest bestBid bestAsk book trades hlt trade trades' hgt hlt2 book' o os newSize bestAsk' book'' ih =>
    obtain ⟨suf, hsuf⟩ := ih
    refine ⟨crossOrders bestBid bestAsk :: suf, ?_⟩
    rw [matchLoop]
    simp only [if_neg hlt, if_neg hgt, if_pos hlt2]
    refine hsuf.trans ?_
    show (trades ++ [crossOrders bestBid bestAsk]) ++ suf =
      trades ++ (crossOrders bestBid bestAsk :: suf)
    simp
  | case6 asksRest bestBid bestAsk book trades hlt hgt hlt2 =>
    refine ⟨[crossOrders bestBid bestAsk], ?_⟩
    rw [matchLoop]
    simp only [if_neg hlt, if_neg hgt, if_neg hlt2]
  | case7 bestBid bestAsk book trades hlt hgt hlt2 o os =>
    refine ⟨[crossOrders bestBid bestAsk], ?_⟩
    rw [matchLoop]
    simp only [if_neg hlt, if_neg hgt, if_neg hlt2]
  | case8 bestBid bestAsk book trades hlt trade trades' hgt hlt2 book' o os o1 os1 ih =>
    obtain ⟨suf, hsuf⟩ := ih
    refine ⟨crossOrders bestBid bestAsk :: suf, ?_⟩
    rw [matchLoop]
    simp only [if_neg hlt, if_neg hgt, if_neg hlt2]
    refine hsuf.trans ?_
    show (trades ++ [crossOrders bestBid bestAsk]) ++ suf =
      trades ++ (crossOrders bestBid bestAsk :: suf)
    simp

/-- If the initial working pair crosses, the loop's first accumulated trade
is `_cross_orders` of exactly that pair. -/
theorem matchLoop_first_trade :
    ∀ (bidsRest asksRest : List Order) (bestBid bestAsk : Order)
      (book : OrderBook) (trades : List Trade),
      ¬ bestBid.price < bestAsk.price →
      ∃ suffix : List Trade,
        (matchLoop bidsRest asksRest bestBid bestAsk book trades).2.2.2 =
          trades ++ (crossOrders bestBid bestAsk :: suffix) := by
  intro bidsRest asksRest bestBid bestAsk book trades
  induction bidsRest, asksRest, bestBid, bestAsk, book, trades using matchLoop.induct with
  | case1 bidsRest asksRest bestBid bestAsk book trades hlt =>
    intro hlt'
    exact absurd hlt hlt'
  | case2 bidsRest bestBid bestAsk book trades hlt hgt =>
    intro _
    refine ⟨[], ?_⟩
    rw [matchLoop]
    simp only [if_neg hlt, if_pos hgt]
  | case3 bidsRest bestBid bestAsk book trades hlt trade trades' hgt book' o os newSize bestBid' book'' ih =>
    intro _
    obtain ⟨suf, hsuf⟩ := matchLoop_trades_mono bidsRest os bestBid' o book'' trades'
    refine ⟨suf, ?_⟩
    rw [matchLoop]
    simp only [if_neg hlt, if_pos hgt]
    refine hsuf.trans ?_
    show (trades ++ [crossOrders bestBid bestAsk]) ++ suf =
      trades ++ (crossOrders bestBid bestAsk :: suf)
    simp
  | case4 asksRest bestBid bestAsk book trades hlt hgt hlt2 =>
    intro _
    refine ⟨[], ?_⟩
    rw [matchLoop]
    simp only [if_neg hlt, if_neg hgt, if_pos hlt2]
  | case5 asksRest bestBid bestAsk book trades hlt trade trades' hgt hlt2 book' o os newSize bestAsk' book'' ih =>
    intro _
    obtain ⟨suf, hsuf⟩ := matchLoop_trades_mono os asksRest o bestAsk' book'' trades'
    refine ⟨suf, ?_⟩
    rw [matchLoop]
    simp only [if_neg hlt, if_neg hgt, if_pos hlt2]
    refine hsuf.trans ?_
    show (trades ++ [crossOrders bestBid bestAsk]) ++ suf =
      trades ++ (crossOrders bestBid bestAsk :: suf)
    simp
  | case6 asksRest bestBid bestAsk book trades hlt hgt hlt2 =>
    intro _
    refine ⟨[], ?_⟩
    rw [matchLoop]
    simp only [if_neg hlt, if_neg hgt, if_neg hlt2]
  | case7 bestBid bestAsk book trades hlt hgt hlt2 o os =>
    intro _
    refine ⟨[], ?_⟩
    rw [matchLoop]
    simp only [if_neg hlt, if_neg hgt, if_neg hlt2]
  | case8 bestBid bestAsk book trades hlt trade trades' hgt hlt2 book' o os o1 os1 ih =>
    intro _
    obtain ⟨suf, hsuf⟩ := matchLoop_trades_mono os os1 o o1 book' trades'
    refine ⟨suf, ?_⟩
    rw [matchLoop]
    simp only [if_neg hlt, if_neg hgt, if_neg hlt2]
    refine hsuf.trans ?_
    show (trades ++ [crossOrders bestBid bestAsk]) ++ suf =
      trades ++ (crossOrders bestBid bestAsk :: suf)
    simp

/-- Claim C4: every trade emitted by `match_orders` (on a book whose resting
sizes are positive, the Order creation invariant) is `_cross_orders` of a
crossing pair of working orders that are partially filled orders of the book
itself: same id, price, side and owner as a resting bid and a resting ask,
with positive remaining sizes bounded by the resting sizes.  The trade's
size is the minimum of those two sizes at the moment of crossing, its price
the midpoint of the two prices, lying between the ask and the bid price.
Moreover the first emitted trade crosses the genuine best bid and best ask:
a maximum-price resting bid against a minimum-price resting ask. -/
theorem c4_trade_shape (book : OrderBook) (trades : List Trade) (book' : OrderBook)
    (h : matchOrders book = Except.ok (trades, book'))
    (hposb : ∀ o ∈ book.bids, 0 < o.size)
    (hposa : ∀ o ∈ book.asks, 0 < o.size) :
    (∀ t ∈ trades, ∃ bid ask : Order,
      reducedOf book.bids bid ∧ reducedOf book.asks ask ∧
      ask.price ≤ bid.price ∧
      t = crossOrders bid ask ∧
      t.size = min bid.size ask.size ∧
      t.price = (bid.price + ask.price) / 2 ∧
      ask.price ≤ t.price ∧ t.price ≤ bid.price) ∧
    (∀ t0 : Trade, trades.head? = some t0 → ∃ bid ask : Order,
      bid ∈ book.bids ∧ ask ∈ book.asks ∧
      (∀ o ∈ book.bids, o.price ≤ bid.price) ∧
      (∀ o ∈ book.asks, ask.price ≤ o.price) ∧
      ask.price ≤ bid.price ∧ t0 = crossOrders bid ask) := by
  rcases hb : (book.bids.mergeSort bidLe).reverse with _ | ⟨bb, bidsRest⟩
  · simp only [matchOrders, hb] at h
    exact absurd h (by simp)
  rcases ha : (book.asks.mergeSort askLe).reverse with _ | ⟨ba, asksRest⟩
  · simp only [matchOrders, hb, ha] at h
    exact absurd h (by simp)
  simp only [matchOrders, hb, ha, Except.ok.injEq, Prod.mk.injEq] at h
  obtain ⟨htr, _⟩ := h
  have hmemb : bb ∈ book.bids := by
    have h1 : bb ∈ (book.bids.mergeSort bidLe).reverse := by
      rw [hb]; exact List.mem_cons_self _ _
    rw [List.mem_reverse] at h1
    exact (List.mergeSort_perm book.bids bidLe).mem_iff.mp h1
  have hmema : ba ∈ book.asks := by
    have h1 : ba ∈ (book.asks.mergeSort askLe).reverse := by
      rw [ha]; exact List.mem_cons_self _ _
    rw [List.mem_reverse] at h1
    exact (List.mergeSort_perm book.asks askLe).mem_iff.mp h1
  have hrb : ∀ o ∈ bidsRest, o ∈ book.bids := by
    intro o ho
    have h1 : o ∈ (book.bids.mergeSort bidLe).reverse := by
      rw [hb]; exact List.mem_cons_of_mem bb ho
    rw [List.mem_reverse] at h1
    exact (List.mergeSort_perm book.bids bidLe).mem_iff.mp h1
  have hra : ∀ o ∈ asksRest, o ∈ book.asks := by
    intro o ho
    have h1 : o ∈ (book.asks.mergeSort askLe).reverse := by
      rw [ha]; exact List.mem_cons_of_mem ba ho
    rw [List.mem_reverse] at h1
    exact (List.mergeSort_perm book.asks askLe).mem_iff.mp h1
  constructor
  · intro t ht
    rw [← htr] at ht
    obtain ⟨bid, ask, hrbid, hrask, hle, heq⟩ :=
      matchLoop_trades_reduced book.bids book.asks bidsRest asksRest bb ba book []
        ⟨bb, hmemb, rfl, rfl, rfl, rfl, hposb bb hmemb, le_refl _⟩
        ⟨ba, hmema, rfl, rfl, rfl, rfl, hposa ba hmema, le_refl _⟩
        (fun o ho => ⟨o, hrb o ho, rfl, rfl, rfl, rfl, hposb o (hrb o ho), le_refl _⟩)
        (fun o ho => ⟨o, hra o ho, rfl, rfl, rfl, rfl, hposa o (hra o ho), le_refl _⟩)
        (by simp) t ht
    subst heq
    refine ⟨bid, ask, hrbid, hrask, hle, rfl, rfl, rfl, ?_, ?_⟩
    · show ask.price ≤ (bid.price + ask.price) / 2
      linarith
    · show (bid.price + ask.price) / 2 ≤ bid.price
      linarith
  · intro t0 h0
    by_cases hlt : bb.price < ba.price
    · have hstop : matchLoop bidsRest asksRest bb ba book [] = (bb, ba, book, []) := by
        rw [matchLoop]
        simp only [if_pos hlt]
      rw [← htr, hstop] at h0
      exact absurd h0 (by simp)
    · obtain ⟨suf, hsuf⟩ := matchLoop_first_trade bidsRest asksRest bb ba book [] hlt
      rw [← htr, hsuf] at h0
      simp only [List.nil_append, List.head?_cons, Option.some.injEq] at h0
      have hmaxb : ∀ o ∈ book.bids, o.price ≤ bb.price := by
        intro o ho
        have htrans : ∀ a b c : Order, bidLe a b = true → bidLe b c = true →
            bidLe a c = true := by
          intro a b c hab hbc
          simp only [bidLe, decide_eq_true_eq] at hab hbc ⊢
          exact le_trans hab hbc
        have htot : ∀ a b : Order, (bidLe a b || bidLe b a) = true := by
          intro a b
          simp only [bidLe, Bool.or_eq_true, decide_eq_true_eq]
          exact le_total a.price b.price
        have hsorted := @List.sorted_mergeSort Order bidLe htrans htot book.bids
        have hms : book.bids.mergeSort bidLe = bidsRest.reverse ++ [bb] := by
          have := congrArg List.reverse hb
          rwa [List.reverse_reverse, List.reverse_cons] at this
        rw [hms] at hsorted
        have ho' : o ∈ bidsRest.reverse ++ [bb] := by
          rw [← hms]
          exact (List.mergeSort_perm book.bids bidLe).mem_iff.mpr ho
        rcases List.mem_append.mp ho' with hmem | hmem
        · have := (List.pairwise_append.mp hsorted).2.2 o hmem bb (List.mem_singleton_self bb)
          simpa [bidLe, decide_eq_true_eq] using this
        · rw [List.mem_singleton.mp hmem]
      have hmina : ∀ o ∈ book.asks, ba.price ≤ o.price := by
        intro o ho
        have htrans : ∀ a b c : Order, askLe a b = true → askLe b c = true →
            askLe a c = true := by
          intro a b c hab hbc
          simp only [askLe, decide_eq_true_eq] at hab hbc ⊢
          exact le_trans hbc hab
        have htot : ∀ a b : Order, (askLe a b || askLe b a) = true := by
          intro a b
          simp only [askLe, Bool.or_eq_true, decide_eq_true_eq]
          exact le_total b.price a.price
        have hsorted := @List.sorted_mergeSort Order askLe htrans htot book.asks
        have hms : book.asks.mergeSort askLe = asksRest.reverse ++ [ba] := by
          have := congrArg List.reverse ha
          rwa [List.reverse_reverse, List.reverse_cons] at this
        rw [hms] at hsorted
        have ho' : o ∈ asksRest.reverse ++ [ba] := by
          rw [← hms]
          exact (List.mergeSort_perm book.asks askLe).mem_iff.mpr ho
        rcases List.mem_append.mp ho' with hmem | hmem
        · have := (List.pairwise_append.mp hsorted).2.2 o hmem ba (List.mem_singleton_self ba)
          simpa [askLe, decide_eq_true_eq] using this
        · rw [List.mem_singleton.mp hmem]
      exact ⟨bb, ba, hmemb, hmema, hmaxb, hmina, not_lt.mp hlt, h0.symm⟩

/-- Witness for `c4_trade_shape`: the scenario book (bid 101 size 10 against
ask 100 size 4) emits exactly the midpoint trade, which crosses the two
resting orders themselves, and it is the first trade, crossing the genuine
best bid and best ask. -/
theorem c4_trade_shape_witness :
    (∀ t ∈ [scTrade], ∃ bid ask : Order,
      reducedOf [scBid] bid ∧ reducedOf [scAsk] ask ∧
      ask.price ≤ bid.price ∧
      t = crossOrders bid ask ∧
      t.size = min bid.size ask.size ∧
      t.price = (bid.price + ask.price) / 2 ∧
      ask.price ≤ t.price ∧ t.price ≤ bid.price) ∧
    (∀ t0 : Trade, ([scTrade] : List Trade).head? = some t0 → ∃ bid ask : Order,
      bid ∈ [scBid] ∧ ask ∈ [scAsk] ∧
      (∀ o ∈ [scBid], o.price ≤ bid.price) ∧
      (∀ o ∈ [scAsk], ask.price ≤ o.price) ∧
      ask.price ≤ bid.price ∧ t0 = crossOrders bid ask) :=
  c4_trade_shape { bids := [scBid], asks := [scAsk] } [scTrade]
    { bids := [scBid, scBid], asks := [scAsk] }
    (by norm_num [matchOrders, matchLoop, crossOrders, cancelOrder, addOrderToBook,
      setSizeById, scBid, scAsk, scTrade, bidLe, askLe])
    (by norm_num [scBid]) (by norm_num [scAsk])

/-- Fuel-indexed rendering of the `while True` loop of `match_orders`,
identical to `matchLoop` step for step; `none` means the iteration budget
ran out before the loop exited. -/
def matchLoopFuel : Nat → List Order → List Order → Order → Order → OrderBook →
    List Trade → Option (Order × Order × OrderBook × List Trade)
  | 0, _, _, _, _, _, _ => none
  | fuel + 1, bidsRest, asksRest, bestBid, bestAsk, book, trades =>
    if bestBid.price < bestAsk.price then
      some (bestBid, bestAsk, book, trades)
    else
      let trade := crossOrders bestBid bestAsk
      let trades' := trades ++ [trade]
      if bestBid.size > bestAsk.size then
        let book' := cancelOrder book bestAsk
        match asksRest with
        | [] => some (bestBid, bestAsk, book', trades')
        | nextAsk :: asksRest' =>
            let newSize := bestBid.size - trade.size
            let bestBid' := { bestBid with size := newSize }
            let book'' := { book' with bids := setSizeById book'.bids bestBid.id newSize }
            matchLoopFuel fuel bidsRest asksRest' bestBid' nextAsk book'' trades'
      else if bestBid.size < bestAsk.size then
        let book' := cancelOrder book bestBid
        match bidsRest with
        | [] => some (bestBid, bestAsk, book', trades')
        | nextBid :: bidsRest' =>
            let newSize := bestAsk.size - trade.size
            let bestAsk' := { bestAsk with size := newSize }
            let book'' := { book' with asks := setSizeById book'.asks bestAsk.id newSize }
            matchLoopFuel fuel bidsRest' asksRest nextBid bestAsk' book'' trades'
      else
        let book' := cancelOrder (cancelOrder book bestBid) bestAsk
        match bidsRest with
        | [] => some (bestBid, bestAsk, book', trades')
        | nextBid :: bidsRest' =>
            match asksRest with
            | [] => some (bestBid, bestAsk, book', trades')
            | nextAsk :: asksRest' =>
                matchLoopFuel fuel bidsRest' asksRest' nextBid nextAsk book' trades'

/-- Claim C7: the matching loop terminates on every finite book.  A budget
of one iteration per remaining resting order always suffices, because every
iteration that does not exit the loop pops at least one order from a sorted
working list; so the fuel-indexed loop never runs out when given more fuel
than there are remaining orders, and it computes the total function
`matchLoop`. -/
theorem c7_matchLoop_terminates :
    ∀ (bidsRest asksRest : List Order) (bestBid bestAsk : Order)
      (book : OrderBook) (trades : List Trade) (fuel : Nat),
      bidsRest.length + asksRest.length < fuel →
      matchLoopFuel fuel bidsRest asksRest bestBid bestAsk book trades =
        some (matchLoop bidsRest asksRest bestBid bestAsk book trades) := by
  intro bidsRest asksRest bestBid bestAsk book trades
  induction bidsRest, asksRest, bestBid, bestAsk, book, trades using matchLoop.induct with
  | case1 bidsRest asksRest bestBid bestAsk book trades hlt =>
    intro fuel hfuel
    match fuel, hfuel with
    | fuel + 1, _ =>
      rw [matchLoop, matchLoopFuel]
      simp only [if_pos hlt]
  | case2 bidsRest bestBid bestAsk book trades hlt hgt =>
    intro fuel hfuel
    match fuel, hfuel with
    | fuel + 1, _ =>
      rw [matchLoop, matchLoopFuel]
      simp only [if_neg hlt, if_pos hgt]
  | case3 bidsRest bestBid bestAsk book trades hlt trade trades' hgt book' o os newSize bestBid' book'' ih =>
    intro fuel hfuel
    match fuel, hfuel with
    | fuel + 1, hfuel =>
      rw [matchLoop, matchLoopFuel]
      simp only [if_neg hlt, if_pos hgt]
      refine ih fuel ?_
      simp only [List.length_cons] at hfuel
      omega
  | case4 asksRest bestBid bestAsk book trades hlt hgt hlt2 =>
    intro fuel hfuel
    match fuel, hfuel with
    | fuel + 1, _ =>
      rw [matchLoop, matchLoopFuel]
      simp only [if_neg hlt, if_neg hgt, if_pos hlt2]
  | case5 asksRest bestBid bestAsk book trades hlt trade trades' hgt hlt2 book' o os newSize bestAsk' book'' ih =>
    intro fuel hfuel
    match fuel, hfuel with
    | fuel + 1, hfuel =>
      rw [matchLoop, matchLoopFuel]
      simp only [if_neg hlt, if_neg hgt, if_pos hlt2]
      refine ih fuel ?_
      simp only [List.length_cons] at hfuel
      omega
  | case6 asksRest bestBid bestAsk book trades hlt hgt hlt2 =>
    intro fuel hfuel
    match fuel, hfuel with
    | fuel + 1, _ =>
      rw [matchLoop, matchLoopFuel]
      simp only [if_neg hlt, if_neg hgt, if_neg hlt2]
  | case7 bestBid bestAsk book trades hlt hgt hlt2 o os =>
    intro fuel hfuel
    match fuel, hfuel with
    | fuel + 1, _ =>
      rw [matchLoop, matchLoopFuel]
      simp only [if_neg hlt, if_neg hgt, if_neg hlt2]
  | case8 bestBid bestAsk book trades hlt trade trades' hgt hlt2 book' o os o1 os1 ih =>
    intro fuel hfuel
    match fuel, hfuel with
    | fuel + 1, hfuel =>
      rw [matchLoop, matchLoopFuel]
      simp only [if_neg hlt, if_neg hgt, if_neg hlt2]
      refine ih fuel ?_
      simp only [List.length_cons] at hfuel
      omega

/-- Witness for `c7_matchLoop_terminates`: one unit of fuel settles the
scenario pair with empty working lists. -/
theorem c7_matchLoop_terminates_witness :
    matchLoopFuel 1 [] [] scBid scAsk { bids := [scBid], asks := [scAsk] } [] =
      some (matchLoop [] [] scBid scAsk { bids := [scBid], asks := [scAsk] } []) :=
  c7_matchLoop_terminates [] [] scBid scAsk
    { bids := [scBid], asks := [scAsk] } [] 1 (by decide)

/-- Claim C10: on a book whose popped best bid (the maximum-price bid) is
strictly cheaper than its popped best ask (the minimum-price ask), the loop
exits immediately with no trades, yet the book is not left unchanged:
`add_order_to_book` appends a second copy of the best bid to the bid list
and a second copy of the best ask to the ask list, so each of those two
identifiers now occurs twice in the book. -/
theorem c10_no_cross_duplicate_append (book : OrderBook) (bb ba : Order)
    (bidsRest asksRest : List Order)
    (hb : (book.bids.mergeSort bidLe).reverse = bb :: bidsRest)
    (ha : (book.asks.mergeSort askLe).reverse = ba :: asksRest)
    (hlt : bb.price < ba.price)
    (hsb : bb.side = OrderSide.bid) (hsa : ba.side = OrderSide.ask)
    (hnb : (book.bids.map Order.id).Nodup) (hna : (book.asks.map Order.id).Nodup) :
    matchOrders book =
      Except.ok ([], { bids := book.bids ++ [bb], asks := book.asks ++ [ba] }) ∧
    (∀ o ∈ book.bids, o.price ≤ bb.price) ∧
    (∀ o ∈ book.asks, ba.price ≤ o.price) ∧
    ((book.bids ++ [bb]).map Order.id).count bb.id = 2 ∧
    ((book.asks ++ [ba]).map Order.id).count ba.id = 2 := by
  have hml : matchLoop bidsRest asksRest bb ba book [] = (bb, ba, book, []) := by
    rw [matchLoop]
    simp only [if_pos hlt]
  have hmemb : bb ∈ book.bids := by
    have h1 : bb ∈ (book.bids.mergeSort bidLe).reverse := by
      rw [hb]; exact List.mem_cons_self _ _
    rw [List.mem_reverse] at h1
    exact (List.mergeSort_perm book.bids bidLe).mem_iff.mp h1
  have hmema : ba ∈ book.asks := by
    have h1 : ba ∈ (book.asks.mergeSort askLe).reverse := by
      rw [ha]; exact List.mem_cons_self _ _
    rw [List.mem_reverse] at h1
    exact (List.mergeSort_perm book.asks askLe).mem_iff.mp h1
  refine ⟨?_, ?_, ?_, ?_, ?_⟩
  · simp only [matchOrders, hb, ha, hml, addOrderToBook, hsb, hsa]
  · intro o ho
    have htrans : ∀ a b c : Order, bidLe a b = true → bidLe b c = true →
        bidLe a c = true := by
      intro a b c hab hbc
      simp only [bidLe, decide_eq_true_eq] at hab hbc ⊢
      exact le_trans hab hbc
    have htot : ∀ a b : Order, (bidLe a b || bidLe b a) = true := by
      intro a b
      simp only [bidLe, Bool.or_eq_true, decide_eq_true_eq]
      exact le_total a.price b.price
    have hsorted := @List.sorted_mergeSort Order bidLe htrans htot book.bids
    have hms : book.bids.mergeSort bidLe = bidsRest.reverse ++ [bb] := by
      have := congrArg List.reverse hb
      rwa [List.reverse_reverse, List.reverse_cons] at this
    rw [hms] at hsorted
    have ho' : o ∈ bidsRest.reverse ++ [bb] := by
      rw [← hms]
      exact (List.mergeSort_perm book.bids bidLe).mem_iff.mpr ho
    rcases List.mem_append.mp ho' with hmem | hmem
    · have := (List.pairwise_append.mp hsorted).2.2 o hmem bb (List.mem_singleton_self bb)
      simpa [bidLe, decide_eq_true_eq] using this
    · rw [List.mem_singleton.mp hmem]
  · intro o ho
    have htrans : ∀ a b c : Order, askLe a b = true → askLe b c = true →
        askLe a c = true := by
      intro a b c hab hbc
      simp only [askLe, decide_eq_true_eq] at hab hbc ⊢
      exact le_trans hbc hab
    have htot : ∀ a b : Order, (askLe a b || askLe b a) = true := by
      intro a b
      simp only [askLe, Bool.or_eq_true, decide_eq_true_eq]
      exact le_total b.price a.price
    have hsorted := @List.sorted_mergeSort Order askLe htrans htot book.asks
    have hms : book.asks.mergeSort askLe = asksRest.reverse ++ [ba] := by
      have := congrArg List.reverse ha
      rwa [List.reverse_reverse, List.reverse_cons] at this
    rw [hms] at hsorted
    have ho' : o ∈ asksRest.reverse ++ [ba] := by
      rw [← hms]
      exact (List.mergeSort_perm book.asks askLe).mem_iff.mpr ho
    rcases List.mem_append.mp ho' with hmem | hmem
    · have := (List.pairwise_append.mp hsorted).2.2 o hmem ba (List.mem_singleton_self ba)
      simpa [askLe, decide_eq_true_eq] using this
    · rw [List.mem_singleton.mp hmem]
  · rw [List.map_append, List.count_append]
    have h1 : (book.bids.map Order.id).count bb.id = 1 :=
      List.count_eq_one_of_mem hnb (List.mem_map_of_mem Order.id hmemb)
    simp [h1]
  · rw [List.map_append, List.count_append]
    have h1 : (book.asks.map Order.id).count ba.id = 1 :=
      List.count_eq_one_of_mem hna (List.mem_map_of_mem Order.id hmema)
    simp [h1]

/-- Witness for `c10_no_cross_duplicate_append`: the non-crossing book with
one bid at 90 and one ask at 100 is returned with both orders duplicated. -/
theorem c10_no_cross_duplicate_append_witness :
    matchOrders { bids := [lowBid], asks := [highAsk] } =
      Except.ok ([], { bids := [lowBid] ++ [lowBid], asks := [highAsk] ++ [highAsk] }) ∧
    (∀ o ∈ [lowBid], o.price ≤ lowBid.price) ∧
    (∀ o ∈ [highAsk], highAsk.price ≤ o.price) ∧
    (([lowBid] ++ [lowBid]).map Order.id).count lowBid.id = 2 ∧
    (([highAsk] ++ [highAsk]).map Order.id).count highAsk.id = 2 :=
  c10_no_cross_duplicate_append { bids := [lowBid], asks := [highAsk] }
    lowBid highAsk [] []
    (by simp [List.mergeSort_singleton])
    (by simp [List.mergeSort_singleton])
    (by norm_num [lowBid, highAsk]) rfl rfl (by simp) (by simp)
